import Mathlib

/-!
Verification of the `nova` planar segment-intersection core.

The sweep-line driver (`src/isect/sweep.ts`) is embedded as executable Lean
definitions over exact rationals (JS `number` values are modelled as `ℚ`).
Collaborator modules of the driver that are not part of the sources at hand
(the geometry module `geom`, the event queue, the sweep status and the
`SweepEvent` class) are modelled from the specification; each such
definition is marked `Modelled from the spec:` in its doc comment.
The generic comparison helpers (`src/abstract/comparable.ts`) are embedded
at the end of the file over an abstract value domain.
-/

namespace Nova

/-- A point of the plane; JS floating point numbers are modelled as exact
rationals. -/
structure Point where
  x : ℚ
  y : ℚ
deriving DecidableEq

/-- Rational division, written so that it evaluates by kernel reduction
(`Rat.divInt` reduces where Mathlib's field-instance `/` on `ℚ` does not);
`qdiv_eq_div` below shows it is ordinary division. Division by zero yields
zero, but every use below is guarded by a zero test, as in the source. -/
def qdiv (a b : ℚ) : ℚ := Rat.divInt (a.num * b.den) (a.den * b.num)

/-- Rational addition via `Rat.divInt`, for the same reason as `qdiv`;
`qadd_eq_add` below shows it is ordinary addition. -/
def qadd (a b : ℚ) : ℚ := Rat.divInt (a.num * b.den + b.num * a.den) (a.den * b.den)

/-- Rational subtraction via `Rat.divInt`; `qsub_eq_sub` below shows it is
ordinary subtraction. -/
def qsub (a b : ℚ) : ℚ := Rat.divInt (a.num * b.den - b.num * a.den) (a.den * b.den)

/-- Rational multiplication via `Rat.divInt`; `qmul_eq_mul` below shows it
is ordinary multiplication. -/
def qmul (a b : ℚ) : ℚ := Rat.divInt (a.num * b.num) (a.den * b.den)

/-- Modelled from the spec: the fixed geometric tolerance `EPS` exported by
the missing `geom` module ("a fixed `EPS` constant is the single source of
geometric tolerance"). -/
def EPS : ℚ := mkRat 1 1000000000

/-- Modelled from the spec: `samePoint(a, b)` from the missing `geom`
module — true iff `|a.x-b.x| < EPS` and `|a.y-b.y| < EPS`. -/
def samePoint (a b : Point) : Bool :=
  decide (|qsub a.x b.x| < EPS) && decide (|qsub a.y b.y| < EPS)

/-- Modelled from the spec: `angle(dy, dx)` from the missing `geom` module —
a deterministic total order key for segment directions sharing an endpoint.
Canonical segments point downward (`dy > 0`) or rightward (`dy = 0`,
`dx < 0`); below a shared point the fan-out position is monotone in
`-dx / dy`, horizontal segments being rightmost. -/
def angle (dy dx : ℚ) : ℚ :=
  if dy = 0 then 1000000 else qdiv (-dx) dy

/-- A segment together with the derived fields that `addSegment` computes
(`dy = from.y - to.y`, `dx = from.x - to.x`, `angle`). -/
structure Segment where
  «from» : Point
  «to» : Point
  dy : ℚ
  dx : ℚ
  angle : ℚ
deriving DecidableEq

/-- A raw input segment, before `addSegment` canonicalizes it. -/
structure RawSegment where
  «from» : Point
  «to» : Point
deriving DecidableEq

/-- Modelled from the spec: a `SweepEvent` (missing `sweep-event` module) is
a point, an optional list of segments whose canonical `from` equals the
point, and an `isReported` flag. -/
structure SweepEvent where
  point : Point
  «from» : Option (List Segment)
  isReported : Bool
deriving DecidableEq

/-- `roundNearZero` from `sweep.ts`: snaps coordinates within `EPS` of zero
to exact zero. -/
def roundNearZero (p : Point) : Point :=
  { x := if |p.x| < EPS then 0 else p.x,
    y := if |p.y| < EPS then 0 else p.y }

/-- `byY` from `sweep.ts`: the event-schedule comparator — decreasing `y`,
then increasing `x`, near-equal values collapsing to `0`. -/
def byY (a b : Point) : ℚ :=
  let res := qsub b.y a.y
  if |res| < EPS then
    let res2 := qsub a.x b.x
    if |res2| < EPS then 0 else res2
  else res

/-- `union` from `sweep.ts`: returns the other operand when one is absent,
otherwise the concatenation of the two arrays. -/
def union {α : Type} (a b : Option (List α)) : Option (List α) :=
  match a with
  | none => b
  | some xs =>
    match b with
    | none => a
    | some ys => some (xs ++ ys)

/-- Modelled from the spec: segment/segment intersection from the missing
`geom` module — the intersection point of the two segment-bounded lines, or
nothing when parallel or when the crossing lies outside either segment. -/
def intersectSegments (a b : Segment) : Option Point :=
  let d1x := qsub a.to.x a.«from».x
  let d1y := qsub a.to.y a.«from».y
  let d2x := qsub b.to.x b.«from».x
  let d2y := qsub b.to.y b.«from».y
  let denom := qsub (qmul d1x d2y) (qmul d1y d2x)
  if denom = 0 then none
  else
    let t := qdiv (qsub (qmul (qsub b.«from».x a.«from».x) d2y)
                        (qmul (qsub b.«from».y a.«from».y) d2x)) denom
    let u := qdiv (qsub (qmul (qsub b.«from».x a.«from».x) d1y)
                        (qmul (qsub b.«from».y a.«from».y) d1x)) denom
    if 0 ≤ t ∧ t ≤ 1 ∧ 0 ≤ u ∧ u ≤ 1 then
      some ⟨qadd a.«from».x (qmul t d1x), qadd a.«from».y (qmul t d1y)⟩
    else none

/-- Modelled from the spec: the event schedule is an ordered set of events
keyed by `byY`; `find` returns the event at a point (within the
comparator's tolerance) or none. -/
def queueFind (q : List SweepEvent) (p : Point) : Option SweepEvent :=
  q.find? (fun e => byY e.point p = 0)

/-- Modelled from the spec: schedule insertion — events are kept sorted by
`byY`; inserting at an already-present point merges by appending the
segment list instead of duplicating the event. -/
def queueInsert (q : List SweepEvent) (e : SweepEvent) : List SweepEvent :=
  match q with
  | [] => [e]
  | h :: t =>
    if byY h.point e.point = 0 then
      { h with «from» := union h.«from» e.«from» } :: t
    else if byY e.point h.point < 0 then
      e :: h :: t
    else
      h :: queueInsert t e

/-- Modelled from the spec: merging a further upper segment into the event
already registered at a point (`prev.data.from.push(segment)`). -/
def queueAddUpper (q : List SweepEvent) (p : Point) (s : Segment) : List SweepEvent :=
  q.map (fun e =>
    if byY e.point p = 0 then { e with «from» := some (e.«from».getD [] ++ [s]) } else e)

/-- Modelled from the spec: the `x` coordinate at which a segment's line
crosses the horizontal line at height `y` (the sweep-status ordering key). -/
def xAtY (s : Segment) (y : ℚ) : ℚ :=
  if s.dy = 0 then s.«from».x
  else qadd s.«from».x (qdiv (qmul (qsub s.«from».y y) (-s.dx)) s.dy)

/-- Modelled from the spec: whether the extended line of a segment passes
through a point within tolerance (`findSegmentsWithPoint` membership). -/
def onLine (s : Segment) (p : Point) : Bool :=
  decide (|qsub (qmul (qsub s.to.x s.«from».x) (qsub p.y s.«from».y))
               (qmul (qsub s.to.y s.«from».y) (qsub p.x s.«from».x))| < EPS)

/-- Modelled from the spec: `findSegmentsWithPoint(point, visitor)` visits,
in status order, every tracked segment whose extended line passes through
the point within tolerance. -/
def findSegmentsWithPoint (status : List Segment) (p : Point) : List Segment :=
  status.filter (fun s => onLine s p)

/-- The "lower" classification of `addLowerOrInterior` in `sweep.ts`:
segments touching the point whose `to` endpoint is the point. -/
def lowerAt (status : List Segment) (p : Point) : List Segment :=
  (findSegmentsWithPoint status p).filter (fun s => samePoint s.to p)

/-- The "interior" classification of `addLowerOrInterior` in `sweep.ts`:
segments touching the point that neither start nor end there. -/
def interiorAt (status : List Segment) (p : Point) : List Segment :=
  (findSegmentsWithPoint status p).filter
    (fun s => !samePoint s.to p && !samePoint s.«from» p)

/-- Modelled from the spec: `deleteSegments(lower, interior, atPoint)` —
removes the given segments from the status. -/
def deleteSegments (status lower interior : List Segment) : List Segment :=
  status.filter (fun s => !(decide (s ∈ lower) || decide (s ∈ interior)))

/-- Modelled from the spec: the status order at a sweep point — by the `x`
coordinate at the sweep `y`, near-ties broken by the precomputed `angle`. -/
def statusLess (p : Point) (a b : Segment) : Bool :=
  let xa := xAtY a p.y
  let xb := xAtY b p.y
  if |qsub xa xb| < EPS then decide (a.angle < b.angle) else decide (xa < xb)

/-- Modelled from the spec: `insertSegments(interior, upper, atPoint)` —
adds the given segments to the status, ordered by current `x` at the
point's `y`. -/
def insertSegments (status interior upper : List Segment) (p : Point) : List Segment :=
  (interior ++ upper).foldl
    (fun st s => List.orderedInsert (fun a b => statusLess p a b = true) s st) status

/-- Modelled from the spec: `getLeftRightPoint(point)` — the immediate
left/right status neighbors of the zero-width position at the point. -/
def getLeftRightPoint (status : List Segment) (p : Point) :
    Option Segment × Option Segment :=
  ((status.filter (fun s => decide (xAtY s p.y < p.x))).getLast?,
   (status.filter (fun s => decide (p.x < xAtY s p.y))).head?)

/-- The four boundary segments returned by `getBoundarySegments`. -/
structure Boundary where
  beforeLeft : Option Segment
  left : Option Segment
  right : Option Segment
  afterRight : Option Segment

/-- Modelled from the spec: `getBoundarySegments(upper, interior)` — the
leftmost and rightmost members of the reinserted block in status order,
together with their outer neighbors. -/
def getBoundarySegments (status upper interior : List Segment) : Boundary :=
  let block := upper ++ interior
  let i := status.findIdx (fun s => decide (s ∈ block))
  let j := status.length - 1 - (status.reverse.findIdx (fun s => decide (s ∈ block)))
  { beforeLeft := if i = 0 then none else status.get? (i - 1),
    left := status.get? i,
    right := status.get? j,
    afterRight := status.get? (j + 1) }

/-- An argument passed to the intersection callback: the driver usually
passes segments, but the duplicate-segment path of `addSegment` passes the
two shared endpoints instead. -/
inductive RVal where
  | seg (s : Segment)
  | pt (p : Point)
deriving DecidableEq

/-- The driver options (`ISectOptions`): a custom `onFound` callback, or
none for the default accumulating reporter. The default `onError` (which
throws) is modelled by the error log of the state. -/
structure Config where
  onFound : Option (Point → List RVal → Bool)

/-- The mutable state owned by one driver instance: the event schedule, the
sweep status, the `results` array of the default reporter, a log of every
intersection-callback invocation, and a log of `onError` messages. -/
structure SweepState where
  queue : List SweepEvent
  status : List Segment
  results : List (Point × List RVal)
  reports : List (Point × List RVal)
  errors : List String
deriving DecidableEq

/-- The driver's `reportIntersection`: the configured `onFound` callback, or
`defaultIntersectionReporter` (which pushes onto `results` and returns a
falsy value). Every invocation is also recorded in the `reports` log. -/
def reportIntersection (cfg : Config) (st : SweepState) (p : Point)
    (segs : List RVal) : SweepState × Bool :=
  match cfg.onFound with
  | none =>
    ({ st with results := st.results ++ [(p, segs)],
               reports := st.reports ++ [(p, segs)] }, false)
  | some f => ({ st with reports := st.reports ++ [(p, segs)] }, f p segs)

/-- `findNewEvent(left, right, p)` from `sweep.ts`: probes a pair of
neighboring segments for an intersection and schedules it as a future event
when it lies at or below the sweep position, is strictly to the right on a
near-equal `y`, and is not an already-known event. -/
def findNewEvent (left right : Option Segment) (e : SweepEvent)
    (st : SweepState) : SweepState :=
  match left, right with
  | some l, some r =>
    (match intersectSegments l r with
     | none => st
     | some inter =>
       let dy := qsub e.point.y inter.y
       if dy < -EPS then st
       else if |dy| < EPS ∧ inter.x ≤ e.point.x then st
       else
         let inter2 := roundNearZero inter
         match queueFind st.queue inter2 with
         | some cur =>
           if cur.isReported then
             { st with errors := st.errors ++ ["We already reported this event."] }
           else st
         | none =>
           { st with queue := queueInsert st.queue (SweepEvent.mk inter2 none false) })
  | _, _ => st

/-- The tail of `handleEventPoint` after the report check: remove
lower/interior segments, reinsert interior/upper segments, and probe the
newly adjacent pairs for future events. -/
def handleTail (st : SweepState) (e : SweepEvent)
    (lower interior upper : List Segment) : SweepState :=
  let lastPoint := e.point
  let status1 := deleteSegments st.status lower interior
  let status2 := insertSegments status1 interior upper lastPoint
  let st2 := { st with status := status2 }
  if upper.length + interior.length = 0 then
    let lr := getLeftRightPoint status2 lastPoint
    match lr.1, lr.2 with
    | some sLeft, some sRight => findNewEvent (some sLeft) (some sRight) e st2
    | _, _ => st2
  else
    let b := getBoundarySegments status2 upper interior
    findNewEvent b.right b.afterRight e (findNewEvent b.beforeLeft b.left e st2)

/-- `handleEventPoint(p)` from `sweep.ts`: classifies the segments touching
the popped event point, reports an intersection when warranted (returning
`true` when the callback requests a stop), and otherwise updates the status
and probes for new events. -/
def handleEventPoint (cfg : Config) (st : SweepState) (e : SweepEvent) :
    SweepState × Bool :=
  let lastPoint := e.point
  let upper := e.«from».getD []
  let lower := lowerAt st.status lastPoint
  let interior := interiorAt st.status lastPoint
  let uLength := upper.length
  let iLength := interior.length
  let lLength := lower.length
  let hasIntersection := uLength + iLength + lLength > 1
  let hasPointIntersection :=
    ¬hasIntersection ∧ uLength = 0 ∧ lLength = 0 ∧ iLength > 0
  if hasIntersection ∨ hasPointIntersection then
    let payload :=
      ((union (some interior) (union (some lower) (some upper))).getD []).map RVal.seg
    let rr := reportIntersection cfg st lastPoint payload
    if rr.2 then (rr.1, true)
    else (handleTail rr.1 e lower interior upper, false)
  else (handleTail st e lower interior upper, false)

/-- The canonicalization pass of `addSegment`: round near-zero coordinates,
snap a near-zero `dy` to an exactly horizontal segment, orient so that
`from` is the topmost-then-leftmost endpoint, and precompute
`dy`/`dx`/`angle`. -/
def canonicalize (raw : RawSegment) : Segment :=
  let f0 := roundNearZero raw.«from»
  let t0 := roundNearZero raw.to
  let dy0 := qsub f0.y t0.y
  let f1 := if |dy0| < mkRat 1 100000 then { f0 with y := t0.y } else f0
  let ft := if f1.y < t0.y ∨ (f1.y = t0.y ∧ f1.x > t0.x) then (t0, f1) else (f1, t0)
  let dy := qsub ft.1.y ft.2.y
  let dx := qsub ft.1.x ft.2.x
  ⟨ft.1, ft.2, dy, dx, angle dy dx⟩

/-- `addSegment(segment)` from `sweep.ts`: canonicalizes the segment,
reports a full-overlap intersection instead of scheduling an identical
duplicate, schedules a lone endpoint event for a degenerate point-segment,
and otherwise schedules the two endpoint events (merging the start into an
existing event at the same point). -/
def addSegment (cfg : Config) (st : SweepState) (raw : RawSegment) : SweepState :=
  let s := canonicalize raw
  let isPoint := s.dy = s.dx ∧ s.dy = 0
  let prev := queueFind st.queue s.«from»
  let dup : Option Segment :=
    match prev with
    | some pe =>
      if isPoint then none
      else (pe.«from».getD []).find? (fun s0 => samePoint s0.to s.to)
    | none => none
  match dup with
  | some s0 =>
    let st1 := (reportIntersection cfg st s0.«from» [RVal.pt s0.«from», RVal.pt s0.to]).1
    (reportIntersection cfg st1 s0.to [RVal.pt s0.«from», RVal.pt s0.to]).1
  | none =>
    if isPoint then
      { st with queue := queueInsert st.queue (SweepEvent.mk s.to none false) }
    else
      let q1 :=
        match prev with
        | some _ => queueAddUpper st.queue s.«from» s
        | none => queueInsert st.queue (SweepEvent.mk s.«from» (some [s]) false)
      { st with queue := queueInsert q1 (SweepEvent.mk s.to none false) }

/-- The empty driver state. -/
def initialState : SweepState := ⟨[], [], [], [], []⟩

/-- `isect(segments, options)`: seed the schedule from the input segments. -/
def isect (cfg : Config) (segs : List RawSegment) : SweepState :=
  segs.foldl (addSegment cfg) initialState

/-- The value `run()` evaluates to: the `results` array when the schedule
drains, the JS `undefined` (`stopped`) when the callback requested an early
stop, or `out` when the step budget of the model is exhausted. -/
inductive RunOutcome where
  | out
  | stopped
  | done (res : List (Point × List RVal))
deriving DecidableEq

/-- `run()` from `sweep.ts`, with an explicit step budget: repeatedly pop
the next event and handle it; return the results when the schedule is
empty, or `undefined` when `handleEventPoint` signals a stop. -/
def runAux (cfg : Config) : Nat → SweepState → SweepState × RunOutcome
  | 0, st => (st, RunOutcome.out)
  | n + 1, st =>
    match st.queue with
    | [] => (st, RunOutcome.done st.results)
    | e :: rest =>
      let hr := handleEventPoint cfg { st with queue := rest } e
      if hr.2 then (hr.1, RunOutcome.stopped) else runAux cfg n hr.1

/-- `step()` from `sweep.ts`: process a single event, ignoring the
callback's stop request, and report whether there was work to do. -/
def stepOnce (cfg : Config) (st : SweepState) : SweepState × Bool :=
  match st.queue with
  | [] => (st, false)
  | e :: rest => ((handleEventPoint cfg { st with queue := rest } e).1, true)

/-- Calling `step()` repeatedly (at most `n` times, stopping when it
returns false). -/
def stepAll (cfg : Config) : Nat → SweepState → SweepState
  | 0, st => st
  | n + 1, st =>
    match st.queue with
    | [] => st
    | e :: rest => stepAll cfg n (handleEventPoint cfg { st with queue := rest } e).1

/-- The upper segment list of an event (`p.from || EMPTY`). -/
def upperOf (e : SweepEvent) : List Segment := e.«from».getD []

/-- The reporting condition of `handleEventPoint`, in the form the spec
states it: `U+I+L > 1`, or `U = 0` and `L = 0` and `I > 0`. -/
def reportableAt (st : SweepState) (e : SweepEvent) : Prop :=
  1 < (upperOf e).length + (interiorAt st.status e.point).length +
      (lowerAt st.status e.point).length
  ∨ ((upperOf e).length = 0 ∧ (lowerAt st.status e.point).length = 0 ∧
     0 < (interiorAt st.status e.point).length)

instance (st : SweepState) (e : SweepEvent) : Decidable (reportableAt st e) :=
  inferInstanceAs (Decidable (_ ∨ _))

/-- The segment list passed to the callback at a reported event point,
exactly as `sweep.ts` builds it: `union(interior, union(lower, upper))`. -/
def payloadOf (st : SweepState) (e : SweepEvent) : List RVal :=
  ((union (some (interiorAt st.status e.point))
      (union (some (lowerAt st.status e.point)) (some (upperOf e)))).getD []).map
    RVal.seg

/-- The default configuration: no custom `onFound`, so the driver uses the
accumulating `defaultIntersectionReporter`. -/
def cfgDefault : Config := ⟨none⟩

/-- A configuration whose `onFound` always requests an early stop. -/
def cfgStop : Config := ⟨some (fun _ _ => true)⟩

/-- Demo input: a segment from `(0,10)` to `(10,0)`. -/
def demoA : RawSegment := ⟨⟨0, 10⟩, ⟨10, 0⟩⟩

/-- Demo input: a segment from `(0,0)` to `(10,10)`; crosses `demoA` at
`(5,5)`. -/
def demoB : RawSegment := ⟨⟨0, 0⟩, ⟨10, 10⟩⟩

/-- Demo input: a segment from `(20,10)` to `(30,0)`. -/
def demoC : RawSegment := ⟨⟨20, 10⟩, ⟨30, 0⟩⟩

/-- Demo input: a segment from `(20,0)` to `(30,10)`; crosses `demoC` at
`(25,5)`. -/
def demoD : RawSegment := ⟨⟨20, 0⟩, ⟨30, 10⟩⟩

/-- Demo input: a segment from `(0,10)` that ends at `(5,5)`, on `demoB`. -/
def demoE : RawSegment := ⟨⟨0, 10⟩, ⟨5, 5⟩⟩

/-- Demo input set with two distinct intersection points. -/
def demo4 : List RawSegment := [demoA, demoB, demoC, demoD]

/-- Demo input set with a single intersection point. -/
def demo2 : List RawSegment := [demoA, demoB]

/-- Demo input: a segment whose endpoints differ by `5e-10 < EPS` in `x` —
degenerate within tolerance, but not exactly degenerate after snapping. -/
def demoH : RawSegment := ⟨⟨1, 0⟩, ⟨mkRat 2000000001 2000000000, 0⟩⟩

/-- Demo event for the `findNewEvent` probe: sweep position just below
`-EPS`. -/
def demoP : SweepEvent := ⟨⟨0, -(mkRat 3 2000000000)⟩, none, false⟩

/-- The `y` at which the demo probe segments cross: `-7e-10`, within `EPS`
of zero. -/
def demoQy : ℚ := -(mkRat 7 10000000000)

/-- Demo probe segment crossing its partner at `(1, demoQy)`. -/
def demoL : Segment := canonicalize ⟨⟨0, qadd demoQy 1⟩, ⟨2, qsub demoQy 1⟩⟩

/-- Demo probe segment crossing its partner at `(1, demoQy)`. -/
def demoR : Segment := canonicalize ⟨⟨2, qadd demoQy 1⟩, ⟨0, qsub demoQy 1⟩⟩

/-- The canonical-orientation invariant of ingested segments, with the
derived fields as `addSegment` computes them: `from` is the topmost (then
leftmost) endpoint, `dy = from.y - to.y`, `dx = from.x - to.x`, and
`angle` is computed from `dy` and `dx`. -/
def SegOK (s : Segment) : Prop :=
  (s.«from».y > s.to.y ∨ (s.«from».y = s.to.y ∧ s.«from».x < s.to.x)) ∧
  s.dy = s.«from».y - s.to.y ∧ s.dx = s.«from».x - s.to.x ∧
  s.angle = angle s.dy s.dx

/-- The upper segment lists stored in a schedule. -/
def queueUppers (q : List SweepEvent) : List Segment :=
  q.flatMap (fun e => e.«from».getD [])

/-- All segments a driver state stores: the sweep status plus the upper
lists of the event schedule. -/
def SegsOf (st : SweepState) : List Segment :=
  st.status ++ queueUppers st.queue

/-- Every stored segment is either a degenerate point-segment or satisfies
the canonical-orientation invariant. -/
def AllSegsOK (st : SweepState) : Prop :=
  ∀ s ∈ SegsOf st, (s.dy = 0 ∧ s.dx = 0) ∨ SegOK s

/-- The runtime-dispatched value domain of `comparable.ts`: capability
flags, the capability methods (optional ones as `Option`), and the
primitive JS comparisons used for plain values. -/
structure NovaOps (α : Type) where
  comparableFlag : α → Bool
  equatableFlag : α → Bool
  ltMethod : α → α → Bool
  leMethod : α → Option (α → Bool)
  gtMethod : α → Option (α → Bool)
  geMethod : α → Option (α → Bool)
  eqMethod : α → α → Bool
  jsLt : α → α → Bool
  jsLe : α → α → Bool
  jsGt : α → α → Bool
  jsGe : α → α → Bool
  jsEq : α → α → Bool

/-- Modelled from the spec: `equality` from the missing `equatable` module —
dispatches to the equatable capability when both operands carry it, else
falls back to the primitive comparison. -/
def equality {α : Type} (ops : NovaOps α) (lhs rhs : α) : Bool :=
  if ops.equatableFlag lhs && ops.equatableFlag rhs then ops.eqMethod lhs rhs
  else ops.jsEq lhs rhs

/-- `lessThan` from `comparable.ts`. -/
def lessThan {α : Type} (ops : NovaOps α) (lhs rhs : α) : Bool :=
  if ops.comparableFlag lhs && ops.comparableFlag rhs then ops.ltMethod lhs rhs
  else ops.jsLt lhs rhs

/-- `lessThanOrEqual` from `comparable.ts`. -/
def lessThanOrEqual {α : Type} (ops : NovaOps α) (lhs rhs : α) : Bool :=
  if ops.comparableFlag lhs && ops.comparableFlag rhs then
    match ops.leMethod lhs with
    | some f => f rhs
    | none => lessThan ops lhs rhs || equality ops lhs rhs
  else ops.jsLe lhs rhs

/-- `greaterThan` from `comparable.ts` — note that the non-comparable
fallback evaluates `lhs > lhs`, exactly as the source reads
(`return lhs > lhs;`). -/
def greaterThan {α : Type} (ops : NovaOps α) (lhs rhs : α) : Bool :=
  if ops.comparableFlag lhs && ops.comparableFlag rhs then
    match ops.gtMethod lhs with
    | some f => f rhs
    | none => !(lessThanOrEqual ops lhs rhs)
  else ops.jsGt lhs lhs

/-- `greaterThanOrEqual` from `comparable.ts`. -/
def greaterThanOrEqual {α : Type} (ops : NovaOps α) (lhs rhs : α) : Bool :=
  if ops.comparableFlag lhs && ops.comparableFlag rhs then
    match ops.geMethod lhs with
    | some f => f rhs
    | none => !(lessThan ops lhs rhs)
  else ops.jsGe lhs rhs

/-- Plain JS numbers: no capability flags, primitive rational
comparisons. -/
def numOps : NovaOps ℚ where
  comparableFlag := fun _ => false
  equatableFlag := fun _ => false
  ltMethod := fun _ _ => false
  leMethod := fun _ => none
  gtMethod := fun _ => none
  geMethod := fun _ => none
  eqMethod := fun _ _ => false
  jsLt := fun a b => decide (a < b)
  jsLe := fun a b => decide (a ≤ b)
  jsGt := fun a b => decide (b < a)
  jsGe := fun a b => decide (b ≤ a)
  jsEq := fun a b => decide (a = b)

/-- `qdiv` is ordinary rational division. -/
theorem qdiv_eq_div (a b : ℚ) : qdiv a b = a / b := by
  unfold qdiv
  rw [Rat.divInt_eq_div]
  push_cast
  by_cases hb : b = 0
  · subst hb
    simp
  · have hbn : (b.num : ℚ) ≠ 0 := by
      exact_mod_cast Rat.num_ne_zero.mpr hb
    have had : (a.den : ℚ) ≠ 0 := by
      exact_mod_cast a.den_nz
    have hna : (a.num : ℚ) = a * a.den := by
      have h := Rat.num_div_den a
      exact (div_eq_iff had).mp h
    have hnb : (b.num : ℚ) = b * b.den := by
      have hbd : (b.den : ℚ) ≠ 0 := by
        exact_mod_cast b.den_nz
      have h := Rat.num_div_den b
      exact (div_eq_iff hbd).mp h
    rw [div_eq_div_iff (mul_ne_zero had hbn) hb, hna, hnb]
    ring

/-- `qadd` is ordinary rational addition. -/
theorem qadd_eq_add (a b : ℚ) : qadd a b = a + b := by
  unfold qadd
  rw [Rat.divInt_eq_div]
  push_cast
  have had : (a.den : ℚ) ≠ 0 := by exact_mod_cast a.den_nz
  have hbd : (b.den : ℚ) ≠ 0 := by exact_mod_cast b.den_nz
  conv_rhs => rw [← Rat.num_div_den a, ← Rat.num_div_den b]
  rw [div_add_div _ _ had hbd]
  ring_nf

/-- `qsub` is ordinary rational subtraction. -/
theorem qsub_eq_sub (a b : ℚ) : qsub a b = a - b := by
  unfold qsub
  rw [Rat.divInt_eq_div]
  push_cast
  have had : (a.den : ℚ) ≠ 0 := by exact_mod_cast a.den_nz
  have hbd : (b.den : ℚ) ≠ 0 := by exact_mod_cast b.den_nz
  conv_rhs => rw [← Rat.num_div_den a, ← Rat.num_div_den b]
  rw [div_sub_div _ _ had hbd]
  ring_nf

/-- `qmul` is ordinary rational multiplication. -/
theorem qmul_eq_mul (a b : ℚ) : qmul a b = a * b := by
  unfold qmul
  rw [Rat.divInt_eq_div]
  push_cast
  conv_rhs => rw [← Rat.num_div_den a, ← Rat.num_div_den b]
  rw [div_mul_div_comm]

theorem reportIntersection_reports (cfg : Config) (st : SweepState) (p : Point)
    (xs : List RVal) :
    (reportIntersection cfg st p xs).1.reports = st.reports ++ [(p, xs)] := by
  unfold reportIntersection
  cases cfg.onFound <;> rfl

theorem reportIntersection_status (cfg : Config) (st : SweepState) (p : Point)
    (xs : List RVal) : (reportIntersection cfg st p xs).1.status = st.status := by
  unfold reportIntersection
  cases cfg.onFound <;> rfl

theorem reportIntersection_queue (cfg : Config) (st : SweepState) (p : Point)
    (xs : List RVal) : (reportIntersection cfg st p xs).1.queue = st.queue := by
  unfold reportIntersection
  cases cfg.onFound <;> rfl

theorem findNewEvent_reports (l r : Option Segment) (e : SweepEvent)
    (st : SweepState) : (findNewEvent l r e st).reports = st.reports := by
  unfold findNewEvent
  cases l <;> cases r <;> try rfl
  repeat' first | rfl | (split <;> try rfl) | dsimp only

theorem findNewEvent_results (l r : Option Segment) (e : SweepEvent)
    (st : SweepState) : (findNewEvent l r e st).results = st.results := by
  unfold findNewEvent
  cases l <;> cases r <;> try rfl
  repeat' first | rfl | (split <;> try rfl) | dsimp only

theorem findNewEvent_status (l r : Option Segment) (e : SweepEvent)
    (st : SweepState) : (findNewEvent l r e st).status = st.status := by
  unfold findNewEvent
  cases l <;> cases r <;> try rfl
  repeat' first | rfl | (split <;> try rfl) | dsimp only

theorem handleTail_reports (st : SweepState) (e : SweepEvent)
    (lower interior upper : List Segment) :
    (handleTail st e lower interior upper).reports = st.reports := by
  unfold handleTail
  repeat' split <;> simp [findNewEvent_reports]

theorem handleEventPoint_reports (cfg : Config) (st : SweepState) (e : SweepEvent) :
    (handleEventPoint cfg st e).1.reports =
      if reportableAt st e then st.reports ++ [(e.point, payloadOf st e)]
      else st.reports := by
  unfold handleEventPoint
  dsimp only
  split
  next hc =>
    have hr : reportableAt st e := by
      unfold reportableAt upperOf
      tauto
    rw [if_pos hr]
    split
    · rw [reportIntersection_reports]
      rfl
    · rw [handleTail_reports, reportIntersection_reports]
      rfl
  next hc =>
    have hr : ¬ reportableAt st e := by
      unfold reportableAt upperOf
      by_contra hcon
      apply hc
      rcases hcon with h1 | h2
      · exact Or.inl h1
      · by_cases hbig : 1 < (e.«from».getD []).length +
          (interiorAt st.status e.point).length + (lowerAt st.status e.point).length
        · exact Or.inl hbig
        · exact Or.inr ⟨hbig, h2.1, h2.2.1, h2.2.2⟩
    rw [if_neg hr, handleTail_reports]

/-- C1: at every processed event point, the intersection callback is
invoked iff `U+I+L > 1` or (`U = 0`, `L = 0`, `I > 0`); when invoked it
receives the event point together with `union(interior, union(lower,
upper))`. -/
theorem claim_C1_report_condition (cfg : Config) (st : SweepState) (e : SweepEvent) :
    ((handleEventPoint cfg st e).1.reports ≠ st.reports ↔ reportableAt st e)
    ∧ (reportableAt st e →
        (handleEventPoint cfg st e).1.reports =
          st.reports ++ [(e.point, payloadOf st e)]) := by
  have h := handleEventPoint_reports cfg st e
  constructor
  · constructor
    · intro hne
      by_contra hnot
      rw [h, if_neg hnot] at hne
      exact hne rfl
    · intro hr
      rw [h, if_pos hr]
      intro hEq
      have := congrArg List.length hEq
      simp at this
  · intro hr
    rw [h, if_pos hr]

/-- Witness for C1 at a concrete reportable event. -/
theorem claim_C1_report_condition_witness :
    reportableAt ⟨[], [⟨⟨0, 10⟩, ⟨10, 0⟩, 10, -10, 1⟩, ⟨⟨10, 10⟩, ⟨0, 0⟩, 10, 10, -1⟩], [], [], []⟩
        ⟨⟨5, 5⟩, none, false⟩
    ∧ (handleEventPoint ⟨none⟩
        ⟨[], [⟨⟨0, 10⟩, ⟨10, 0⟩, 10, -10, 1⟩, ⟨⟨10, 10⟩, ⟨0, 0⟩, 10, 10, -1⟩], [], [], []⟩
        ⟨⟨5, 5⟩, none, false⟩).1.reports =
      [] ++ [(⟨5, 5⟩,
        payloadOf ⟨[], [⟨⟨0, 10⟩, ⟨10, 0⟩, 10, -10, 1⟩, ⟨⟨10, 10⟩, ⟨0, 0⟩, 10, 10, -1⟩], [], [], []⟩
          ⟨⟨5, 5⟩, none, false⟩)] :=
  ⟨by decide,
   (claim_C1_report_condition ⟨none⟩
      ⟨[], [⟨⟨0, 10⟩, ⟨10, 0⟩, 10, -10, 1⟩, ⟨⟨10, 10⟩, ⟨0, 0⟩, 10, 10, -1⟩], [], [], []⟩
      ⟨⟨5, 5⟩, none, false⟩).2 (by decide)⟩

/-- When `handleEventPoint` signals a stop, it returned right after the
report, before any status or schedule work. -/
theorem handleEventPoint_stop_char (cfg : Config) (st : SweepState) (e : SweepEvent)
    (h : (handleEventPoint cfg st e).2 = true) :
    handleEventPoint cfg st e =
      ((reportIntersection cfg st e.point (payloadOf st e)).1, true) := by
  unfold handleEventPoint at h ⊢
  dsimp only at h ⊢
  split_ifs at h ⊢ with h1 h2
  all_goals rfl

/-- C5 (amended): when the report callback returns truthy, the driver stops
immediately — the status deletions/reinsertions and the probes for new
events at that point are skipped, leaving status and schedule untouched. -/
theorem claim_C5_stop_skips_remaining_work (cfg : Config) (st : SweepState)
    (e : SweepEvent) (h : (handleEventPoint cfg st e).2 = true) :
    (handleEventPoint cfg st e).1.status = st.status ∧
    (handleEventPoint cfg st e).1.queue = st.queue := by
  rw [handleEventPoint_stop_char cfg st e h]
  exact ⟨reportIntersection_status cfg st e.point (payloadOf st e),
         reportIntersection_queue cfg st e.point (payloadOf st e)⟩

/-- Witness for the amended C5: a concrete stop event. -/
theorem claim_C5_stop_skips_remaining_work_witness :
    (handleEventPoint cfgStop
        ⟨[], [⟨⟨0, 10⟩, ⟨10, 0⟩, 10, -10, 1⟩, ⟨⟨10, 10⟩, ⟨0, 0⟩, 10, 10, -1⟩], [], [], []⟩
        ⟨⟨5, 5⟩, none, false⟩).2 = true ∧
    (handleEventPoint cfgStop
        ⟨[], [⟨⟨0, 10⟩, ⟨10, 0⟩, 10, -10, 1⟩, ⟨⟨10, 10⟩, ⟨0, 0⟩, 10, 10, -1⟩], [], [], []⟩
        ⟨⟨5, 5⟩, none, false⟩).1.status =
      [⟨⟨0, 10⟩, ⟨10, 0⟩, 10, -10, 1⟩, ⟨⟨10, 10⟩, ⟨0, 0⟩, 10, 10, -1⟩] :=
  ⟨by decide,
   (claim_C5_stop_skips_remaining_work cfgStop
      ⟨[], [⟨⟨0, 10⟩, ⟨10, 0⟩, 10, -10, 1⟩, ⟨⟨10, 10⟩, ⟨0, 0⟩, 10, 10, -1⟩], [], [], []⟩
      ⟨⟨5, 5⟩, none, false⟩ (by decide)).1⟩

/-- C5 counterexample: with an always-cancelling callback on segments
`demoE` (ending at `(5,5)`) and `demoB` (passing through it), the run
stops at `(5,5)` but `demoE` — a lower segment there, which the claim says
is still removed before stopping — is still in the status. -/
theorem claim_C5_counterexample :
    (runAux cfgStop 20 (isect cfgStop [demoE, demoB])).2 = RunOutcome.stopped ∧
    canonicalize demoE ∈ (runAux cfgStop 20 (isect cfgStop [demoE, demoB])).1.status ∧
    samePoint (canonicalize demoE).to ⟨5, 5⟩ = true ∧
    (runAux cfgStop 20 (isect cfgStop [demoE, demoB])).1.reports =
      [(⟨5, 5⟩, [RVal.seg (canonicalize demoB), RVal.seg (canonicalize demoE)])] := by
  decide

/-- C2 (amended): when the callback requests a stop at the event at the
head of the schedule, `run()` stops at that event and returns `undefined`
(modelled as `RunOutcome.stopped`), leaving the state — including the
results accumulated so far — exactly as the stopping event left it. -/
theorem claim_C2_early_stop_returns_undefined (cfg : Config) (st st1 : SweepState)
    (e : SweepEvent) (rest : List SweepEvent) (n : Nat)
    (hq : st.queue = e :: rest)
    (hh : handleEventPoint cfg { st with queue := rest } e = (st1, true)) :
    runAux cfg (n + 1) st = (st1, RunOutcome.stopped) := by
  unfold runAux
  rw [hq]
  dsimp only
  rw [hh]
  simp

/-- Witness for the amended C2: on `demo4` with an always-true `onFound`,
the run stops at the `(5,5)` event. -/
theorem claim_C2_early_stop_returns_undefined_witness :
    runAux cfgStop (9 + 1) (stepAll cfgStop 4 (isect cfgStop demo4)) =
      ((handleEventPoint cfgStop
          { stepAll cfgStop 4 (isect cfgStop demo4) with
            queue := (stepAll cfgStop 4 (isect cfgStop demo4)).queue.tail }
          ⟨⟨5, 5⟩, none, false⟩).1, RunOutcome.stopped) :=
  claim_C2_early_stop_returns_undefined cfgStop
    (stepAll cfgStop 4 (isect cfgStop demo4))
    (handleEventPoint cfgStop
      { stepAll cfgStop 4 (isect cfgStop demo4) with
        queue := (stepAll cfgStop 4 (isect cfgStop demo4)).queue.tail }
      ⟨⟨5, 5⟩, none, false⟩).1
    ⟨⟨5, 5⟩, none, false⟩
    (stepAll cfgStop 4 (isect cfgStop demo4)).queue.tail 9
    (by decide) (by decide)

/-- C2 counterexample: on `demo4` (two intersections) with an `onFound`
that returns true at the first report, `run()` returns `undefined`
(`stopped`) — not the accumulated results list the claim promises — after
exactly one callback invocation; the default run finds two intersections. -/
theorem claim_C2_counterexample :
    (runAux cfgStop 30 (isect cfgStop demo4)).2 = RunOutcome.stopped ∧
    (∀ l : List (Point × List RVal),
        (runAux cfgStop 30 (isect cfgStop demo4)).2 ≠ RunOutcome.done l) ∧
    (runAux cfgStop 30 (isect cfgStop demo4)).1.reports.length = 1 ∧
    (runAux cfgDefault 30 (isect cfgDefault demo4)).1.results.length = 2 := by
  have h2 : (runAux cfgStop 30 (isect cfgStop demo4)).2 = RunOutcome.stopped := by
    decide
  refine ⟨h2, ?_, by decide, by decide⟩
  intro l hl
  rw [h2] at hl
  exact RunOutcome.noConfusion hl

theorem reportIntersection_default_snd (st : SweepState) (p : Point)
    (xs : List RVal) : (reportIntersection cfgDefault st p xs).2 = false := rfl

/-- With the default reporter the callback never requests a stop. -/
theorem handleEventPoint_default_snd (st : SweepState) (e : SweepEvent) :
    (handleEventPoint cfgDefault st e).2 = false := by
  unfold handleEventPoint
  dsimp only
  split_ifs with h1 h2
  · exact absurd h2 (by simp [reportIntersection, cfgDefault])
  · rfl
  · rfl

/-- With the default reporter, `run()` and repeated `step()` traverse the
same states; when `run()` finishes, `step()` has drained the queue and
accumulated the same results. -/
theorem runAux_stepAll_default (n : Nat) (st : SweepState) :
    (runAux cfgDefault n st).1 = stepAll cfgDefault n st ∧
    ∀ r, (runAux cfgDefault n st).2 = RunOutcome.done r →
      r = (stepAll cfgDefault n st).results ∧
      (stepAll cfgDefault n st).queue = [] := by
  induction n generalizing st with
  | zero =>
    exact ⟨rfl, fun r h => RunOutcome.noConfusion h⟩
  | succ n ih =>
    rcases hq : st.queue with _ | ⟨e, rest⟩
    · unfold runAux stepAll
      rw [hq]
      dsimp only
      refine ⟨rfl, fun r h => ?_⟩
      injection h with h1
      exact ⟨h1.symm, hq⟩
    · unfold runAux stepAll
      rw [hq]
      dsimp only
      rw [handleEventPoint_default_snd]
      simp only [Bool.false_eq_true, if_false]
      exact ih _

/-- C3: with the default `onFound` handler, calling `step()` until it
returns false leaves the driver with the same accumulated results list as
calling `run()` once on a fresh driver over the same input. -/
theorem claim_C3_step_equals_run (segs : List RawSegment) (n : Nat)
    (r : List (Point × List RVal))
    (h : (runAux cfgDefault n (isect cfgDefault segs)).2 = RunOutcome.done r) :
    (stepAll cfgDefault n (isect cfgDefault segs)).results = r ∧
    (stepAll cfgDefault n (isect cfgDefault segs)).queue = [] := by
  have hh := (runAux_stepAll_default n (isect cfgDefault segs)).2 r h
  exact ⟨hh.1.symm, hh.2⟩

/-- Witness for C3 on the crossing pair `demo2`. -/
theorem claim_C3_step_equals_run_witness :
    (stepAll cfgDefault 20 (isect cfgDefault demo2)).results =
      [(⟨5, 5⟩, [RVal.seg ⟨⟨0, 10⟩, ⟨10, 0⟩, 10, -10, 1⟩,
                 RVal.seg ⟨⟨10, 10⟩, ⟨0, 0⟩, 10, 10, -1⟩])] ∧
    (stepAll cfgDefault 20 (isect cfgDefault demo2)).queue = [] :=
  claim_C3_step_equals_run demo2 20
    [(⟨5, 5⟩, [RVal.seg ⟨⟨0, 10⟩, ⟨10, 0⟩, 10, -10, 1⟩,
               RVal.seg ⟨⟨10, 10⟩, ⟨0, 0⟩, 10, 10, -1⟩])]
    (by decide)

/-- C9: the `union` helper concatenates its two present operands into a new
array, and the segments list handed to the callback is exactly the
concatenation `interior ++ lower ++ upper`. -/
theorem claim_C9_payload_concat :
    (∀ (a b : List RVal), union (some a) (some b) = some (a ++ b))
    ∧ ∀ (cfg : Config) (st : SweepState) (e : SweepEvent), reportableAt st e →
        (handleEventPoint cfg st e).1.reports =
          st.reports ++ [(e.point,
            ((interiorAt st.status e.point) ++ (lowerAt st.status e.point) ++
              (upperOf e)).map RVal.seg)] := by
  constructor
  · intro a b
    rfl
  · intro cfg st e hr
    have h := handleEventPoint_reports cfg st e
    rw [h, if_pos hr]
    unfold payloadOf union
    simp [List.append_assoc]

/-- Witness for C9 at a concrete reportable event. -/
theorem claim_C9_payload_concat_witness :
    reportableAt ⟨[], [⟨⟨0, 10⟩, ⟨10, 0⟩, 10, -10, 1⟩, ⟨⟨10, 10⟩, ⟨0, 0⟩, 10, 10, -1⟩], [], [], []⟩
        ⟨⟨5, 5⟩, none, false⟩
    ∧ (handleEventPoint ⟨none⟩
        ⟨[], [⟨⟨0, 10⟩, ⟨10, 0⟩, 10, -10, 1⟩, ⟨⟨10, 10⟩, ⟨0, 0⟩, 10, 10, -1⟩], [], [], []⟩
        ⟨⟨5, 5⟩, none, false⟩).1.reports =
      [] ++ [(⟨5, 5⟩,
        ((interiorAt [⟨⟨0, 10⟩, ⟨10, 0⟩, 10, -10, 1⟩, ⟨⟨10, 10⟩, ⟨0, 0⟩, 10, 10, -1⟩] ⟨5, 5⟩) ++
          (lowerAt [⟨⟨0, 10⟩, ⟨10, 0⟩, 10, -10, 1⟩, ⟨⟨10, 10⟩, ⟨0, 0⟩, 10, 10, -1⟩] ⟨5, 5⟩) ++
          (upperOf ⟨⟨5, 5⟩, none, false⟩)).map RVal.seg)] :=
  ⟨by decide,
   claim_C9_payload_concat.2 ⟨none⟩
      ⟨[], [⟨⟨0, 10⟩, ⟨10, 0⟩, 10, -10, 1⟩, ⟨⟨10, 10⟩, ⟨0, 0⟩, 10, 10, -1⟩], [], [], []⟩
      ⟨⟨5, 5⟩, none, false⟩ (by decide)⟩

/-- C7: adding a non-degenerate segment identical (same canonical endpoints
within epsilon) to one already registered at the same start event invokes
the intersection callback exactly twice — at the registered segment's two
endpoints — and leaves the schedule unchanged, so the duplicate is never
scheduled (hence never enters the status). -/
theorem claim_C7_duplicate_reported_not_scheduled (cfg : Config) (st : SweepState)
    (raw : RawSegment) (pe : SweepEvent) (lst : List Segment) (s0 : Segment)
    (hnp : ¬((canonicalize raw).dy = (canonicalize raw).dx ∧ (canonicalize raw).dy = 0))
    (hprev : queueFind st.queue (canonicalize raw).«from» = some pe)
    (hlst : pe.«from» = some lst)
    (hdup : lst.find? (fun s1 => samePoint s1.to (canonicalize raw).to) = some s0) :
    addSegment cfg st raw =
      (reportIntersection cfg
        (reportIntersection cfg st s0.«from» [RVal.pt s0.«from», RVal.pt s0.to]).1
        s0.to [RVal.pt s0.«from», RVal.pt s0.to]).1 ∧
    (addSegment cfg st raw).queue = st.queue ∧
    (addSegment cfg st raw).reports =
      st.reports ++ [(s0.«from», [RVal.pt s0.«from», RVal.pt s0.to]),
                     (s0.to, [RVal.pt s0.«from», RVal.pt s0.to])] := by
  have hmain : addSegment cfg st raw =
      (reportIntersection cfg
        (reportIntersection cfg st s0.«from» [RVal.pt s0.«from», RVal.pt s0.to]).1
        s0.to [RVal.pt s0.«from», RVal.pt s0.to]).1 := by
    unfold addSegment
    dsimp only
    rw [hprev]
    dsimp only
    rw [if_neg hnp, hlst]
    dsimp only [Option.getD]
    rw [hdup]
  refine ⟨hmain, ?_, ?_⟩
  · rw [hmain, reportIntersection_queue, reportIntersection_queue]
  · rw [hmain, reportIntersection_reports, reportIntersection_reports,
      List.append_assoc]
    rfl

/-- Witness for C7: adding `demoA` twice. -/
theorem claim_C7_duplicate_reported_not_scheduled_witness :
    (addSegment cfgDefault (isect cfgDefault [demoA]) demoA).queue =
      (isect cfgDefault [demoA]).queue ∧
    (addSegment cfgDefault (isect cfgDefault [demoA]) demoA).reports =
      (isect cfgDefault [demoA]).reports ++
        [(⟨0, 10⟩, [RVal.pt ⟨0, 10⟩, RVal.pt ⟨10, 0⟩]),
         (⟨10, 0⟩, [RVal.pt ⟨0, 10⟩, RVal.pt ⟨10, 0⟩])] := by
  have h := claim_C7_duplicate_reported_not_scheduled cfgDefault
    (isect cfgDefault [demoA]) demoA
    ⟨⟨0, 10⟩, some [⟨⟨0, 10⟩, ⟨10, 0⟩, 10, -10, 1⟩], false⟩
    [⟨⟨0, 10⟩, ⟨10, 0⟩, 10, -10, 1⟩]
    ⟨⟨0, 10⟩, ⟨10, 0⟩, 10, -10, 1⟩
    (by decide) (by decide)
    (by decide) (by decide)
  exact ⟨h.2.1, h.2.2⟩

/-- C8 (amended): a segment that is exactly degenerate after rounding and
snapping (`dy = dx = 0`) raises no error and performs exactly one schedule
insertion — a single-point event at `to` carrying no upper-segment list —
so the segment itself is never scheduled and never enters the status. -/
theorem claim_C8_degenerate_point_event (cfg : Config) (st : SweepState)
    (raw : RawSegment)
    (h : (canonicalize raw).dy = (canonicalize raw).dx ∧ (canonicalize raw).dy = 0) :
    addSegment cfg st raw =
      { st with queue := queueInsert st.queue ⟨(canonicalize raw).to, none, false⟩ } ∧
    (addSegment cfg st raw).reports = st.reports ∧
    (addSegment cfg st raw).errors = st.errors := by
  have hmain : addSegment cfg st raw =
      { st with queue := queueInsert st.queue ⟨(canonicalize raw).to, none, false⟩ } := by
    unfold addSegment
    dsimp only
    rcases hp : queueFind st.queue (canonicalize raw).«from» with _ | pe
    · dsimp only
      rw [if_pos h]
    · dsimp only
      rw [if_pos h]
      dsimp only
      rw [if_pos h]
  exact ⟨hmain, by rw [hmain], by rw [hmain]⟩

/-- Witness for the amended C8: a zero-length input segment. -/
theorem claim_C8_degenerate_point_event_witness :
    addSegment cfgDefault initialState ⟨⟨3, 3⟩, ⟨3, 3⟩⟩ =
      { initialState with
        queue := queueInsert initialState.queue
          ⟨(canonicalize ⟨⟨3, 3⟩, ⟨3, 3⟩⟩).to, none, false⟩ } :=
  (claim_C8_degenerate_point_event cfgDefault initialState ⟨⟨3, 3⟩, ⟨3, 3⟩⟩
    (by decide)).1

/-- C8 counterexample: `demoH` is degenerate within tolerance after
snapping (`samePoint from to`), yet `addSegment` does not take the
single-point path — the schedule's one event carries the segment in its
upper list, and one `step()` moves the segment into the sweep status. -/
theorem claim_C8_counterexample :
    samePoint (canonicalize demoH).«from» (canonicalize demoH).to = true ∧
    (isect cfgDefault [demoH]).queue =
      [⟨⟨1, 0⟩, some [canonicalize demoH], false⟩] ∧
    (stepAll cfgDefault 1 (isect cfgDefault [demoH])).status = [canonicalize demoH] := by
  decide

/-- C10: when the operands do not both carry the comparable capability
flag, `greaterThan(lhs, rhs)` returns the value of `lhs > lhs`; for plain
numbers, that is false regardless of `rhs`. -/
theorem claim_C10_greaterThan_compares_lhs_with_itself :
    (∀ (α : Type) (ops : NovaOps α) (lhs rhs : α),
        ¬(ops.comparableFlag lhs = true ∧ ops.comparableFlag rhs = true) →
        greaterThan ops lhs rhs = ops.jsGt lhs lhs)
    ∧ ∀ (a b : ℚ), greaterThan numOps a b = false := by
  constructor
  · intro α ops lhs rhs h
    unfold greaterThan
    rw [if_neg]
    simpa [Bool.and_eq_true] using h
  · intro a b
    unfold greaterThan numOps
    simp

theorem queueFind_cons_none {h0 : SweepEvent} {t : List SweepEvent} {p : Point}
    (h : queueFind (h0 :: t) p = none) :
    ¬(byY h0.point p = 0) ∧ queueFind t p = none := by
  unfold queueFind at h ⊢
  rw [List.find?_cons] at h
  split at h
  · exact absurd h (by simp)
  · next hb => exact ⟨by simpa using hb, h⟩

/-- Inserting an event at a point not yet in the schedule does not merge:
the schedule grows by one. -/
theorem queueInsert_length (q : List SweepEvent) (e : SweepEvent)
    (h : queueFind q e.point = none) :
    (queueInsert q e).length = q.length + 1 := by
  induction q with
  | nil => rfl
  | cons h0 t ih =>
    obtain ⟨hb, ht⟩ := queueFind_cons_none h
    unfold queueInsert
    rw [if_neg hb]
    by_cases hlt : byY e.point h0.point < 0
    · rw [if_pos hlt]
      simp
    · rw [if_neg hlt]
      simp [ih ht]

/-- The probe either leaves the schedule unchanged or inserts the rounded
intersection as a fresh event, exactly under the source's conditions. -/
theorem findNewEvent_queue_cases (l r : Segment) (e : SweepEvent) (st : SweepState) :
    (findNewEvent (some l) (some r) e st).queue = st.queue ∨
    ∃ q, intersectSegments l r = some q ∧
      ¬(qsub e.point.y q.y < -EPS) ∧
      ¬(|qsub e.point.y q.y| < EPS ∧ q.x ≤ e.point.x) ∧
      queueFind st.queue (roundNearZero q) = none ∧
      (findNewEvent (some l) (some r) e st).queue =
        queueInsert st.queue ⟨roundNearZero q, none, false⟩ := by
  rcases hi : intersectSegments l r with _ | q
  · left
    unfold findNewEvent
    dsimp only
    rw [hi]
  · unfold findNewEvent
    dsimp only
    rw [hi]
    dsimp only
    split_ifs with h1 h2
    · left; rfl
    · left; rfl
    · rcases hf : queueFind st.queue (roundNearZero q) with _ | cur
      · dsimp only
        right
        exact ⟨q, rfl, h1, h2, hf, rfl⟩
      · dsimp only
        left
        split_ifs <;> rfl

/-- C4 (amended): a `findNewEvent(left, right, p)` probe schedules a new
event iff `intersectSegments` yields `q` with `q.y <= p.y` within
tolerance, `q.x > p.x` when the `y`s are equal within tolerance, and no
event already exists at the snapped point; the inserted event is `q` with
near-zero coordinates snapped to zero, so the pre-snap intersection is
never more than `EPS` above the sweep position, though the stored `y` may
be snapped up to `0`. -/
theorem claim_C4_probe_schedules_iff (l r : Segment) (e : SweepEvent)
    (st : SweepState) :
    ((findNewEvent (some l) (some r) e st).queue ≠ st.queue ↔
      ∃ q, intersectSegments l r = some q ∧
        ¬(qsub e.point.y q.y < -EPS) ∧
        ¬(|qsub e.point.y q.y| < EPS ∧ q.x ≤ e.point.x) ∧
        queueFind st.queue (roundNearZero q) = none)
    ∧ (∀ q, intersectSegments l r = some q →
        ¬(qsub e.point.y q.y < -EPS) →
        ¬(|qsub e.point.y q.y| < EPS ∧ q.x ≤ e.point.x) →
        queueFind st.queue (roundNearZero q) = none →
        (findNewEvent (some l) (some r) e st).queue =
          queueInsert st.queue ⟨roundNearZero q, none, false⟩)
    ∧ (∀ q, intersectSegments l r = some q →
        (findNewEvent (some l) (some r) e st).queue ≠ st.queue →
        q.y ≤ e.point.y + EPS ∧
        ((roundNearZero q).y = q.y ∨ (roundNearZero q).y = 0)) := by
  have hchar := findNewEvent_queue_cases l r e st
  have hins : ∀ q, intersectSegments l r = some q →
      ¬(qsub e.point.y q.y < -EPS) →
      ¬(|qsub e.point.y q.y| < EPS ∧ q.x ≤ e.point.x) →
      queueFind st.queue (roundNearZero q) = none →
      (findNewEvent (some l) (some r) e st).queue =
        queueInsert st.queue ⟨roundNearZero q, none, false⟩ := by
    intro q hi h1 h2 hf
    unfold findNewEvent
    dsimp only
    rw [hi]
    dsimp only
    rw [if_neg h1, if_neg h2, hf]
  refine ⟨⟨?_, ?_⟩, hins, ?_⟩
  · intro hne
    rcases hchar with hsame | ⟨q, hi, h1, h2, hf, heq⟩
    · exact absurd hsame hne
    · exact ⟨q, hi, h1, h2, hf⟩
  · rintro ⟨q, hi, h1, h2, hf⟩
    rw [hins q hi h1 h2 hf]
    intro hq
    have := congrArg List.length hq
    rw [queueInsert_length st.queue ⟨roundNearZero q, none, false⟩ hf] at this
    omega
  · intro q hi hne
    rcases hchar with hsame | ⟨q2, hi2, h1, h2, hf, heq⟩
    · exact absurd hsame hne
    · rw [hi] at hi2
      injection hi2 with hqq
      subst hqq
      constructor
      · by_contra hy
        rw [qsub_eq_sub] at h1
        push_neg at h1 hy
        linarith [h1]
      · unfold roundNearZero
        dsimp only
        split_ifs
        · right; rfl
        · left; rfl

/-- Witness for the amended C4: the demo probe inserts one event. -/
theorem claim_C4_probe_schedules_iff_witness :
    (findNewEvent (some demoL) (some demoR) demoP initialState).queue =
      queueInsert initialState.queue
        ⟨roundNearZero ⟨1, demoQy⟩, none, false⟩ :=
  (claim_C4_probe_schedules_iff demoL demoR demoP initialState).2.1 ⟨1, demoQy⟩
    (by decide) (by decide)
    (by decide) (by decide)

/-- C4 counterexample: the demo probe — sweep position `p.y = -1.5e-9`,
intersection at `y = -0.7e-9 <= p.y + EPS` — schedules the event at the
snapped point `(1, 0)`, which lies strictly above the sweep position, by
more than `EPS`; so "no event is ever inserted above the current sweep
position" fails as stated. -/
theorem claim_C4_counterexample :
    (findNewEvent (some demoL) (some demoR) demoP initialState).queue =
      [⟨⟨1, 0⟩, none, false⟩] ∧
    qadd demoP.point.y EPS < 0 := by
  decide

theorem union_getD {α : Type} (a b : Option (List α)) :
    (union a b).getD [] = a.getD [] ++ b.getD [] := by
  cases a <;> cases b <;> simp [union]

theorem queueUppers_cons (e : SweepEvent) (q : List SweepEvent) :
    queueUppers (e :: q) = e.«from».getD [] ++ queueUppers q := rfl

theorem mem_queueUppers_queueInsert {q : List SweepEvent} {e : SweepEvent}
    {s : Segment} (h : s ∈ queueUppers (queueInsert q e)) :
    s ∈ queueUppers q ∨ s ∈ e.«from».getD [] := by
  induction q with
  | nil =>
    rw [queueInsert] at h
    rw [queueUppers_cons] at h
    simp [queueUppers] at h
    exact Or.inr h
  | cons h0 t ih =>
    rw [queueInsert] at h
    split_ifs at h with hb hlt
    · rw [queueUppers_cons] at h
      dsimp only at h
      rw [union_getD] at h
      rw [queueUppers_cons]
      simp only [List.mem_append] at h ⊢
      tauto
    · rw [queueUppers_cons, List.mem_append] at h
      rcases h with h | h
      · exact Or.inr h
      · exact Or.inl h
    · rw [queueUppers_cons, List.mem_append] at h
      rw [queueUppers_cons, List.mem_append]
      rcases h with h | h
      · exact Or.inl (Or.inl h)
      · rcases ih h with h2 | h2
        · exact Or.inl (Or.inr h2)
        · exact Or.inr h2

theorem mem_queueUppers_queueAddUpper {q : List SweepEvent} {p : Point}
    {sNew s : Segment} (h : s ∈ queueUppers (queueAddUpper q p sNew)) :
    s ∈ queueUppers q ∨ s = sNew := by
  induction q with
  | nil => simp [queueAddUpper, queueUppers] at h
  | cons h0 t ih =>
    rw [queueAddUpper, List.map_cons, queueUppers_cons] at h
    rw [queueUppers_cons]
    rw [List.mem_append] at h ⊢
    rcases h with h | h
    · split_ifs at h with hb
      · dsimp only at h
        rw [Option.getD_some, List.mem_append] at h
        rcases h with h | h
        · exact Or.inl (Or.inl h)
        · exact Or.inr (List.mem_singleton.mp h)
      · exact Or.inl (Or.inl h)
    · rcases ih h with h2 | h2
      · exact Or.inl (Or.inr h2)
      · exact Or.inr h2

theorem mem_queueUppers_findNewEvent {l r : Option Segment} {e : SweepEvent}
    {st : SweepState} {s : Segment}
    (h : s ∈ queueUppers (findNewEvent l r e st).queue) :
    s ∈ queueUppers st.queue := by
  unfold findNewEvent at h
  rcases l with _ | l
  · exact h
  rcases r with _ | r
  · exact h
  dsimp only at h
  rcases hi : intersectSegments l r with _ | q
  · rw [hi] at h
    exact h
  rw [hi] at h
  dsimp only at h
  split_ifs at h with h1 h2
  · exact h
  · exact h
  · rcases hf : queueFind st.queue (roundNearZero q) with _ | cur
    · rw [hf] at h
      dsimp only at h
      rcases mem_queueUppers_queueInsert h with h3 | h3
      · exact h3
      · simp at h3
    · rw [hf] at h
      dsimp only at h
      split_ifs at h <;> exact h

theorem mem_insertSegments {base interior upper : List Segment} {p : Point}
    {s : Segment} (h : s ∈ insertSegments base interior upper p) :
    s ∈ base ∨ s ∈ interior ∨ s ∈ upper := by
  have key : ∀ (xs acc : List Segment),
      s ∈ xs.foldl
        (fun st s2 => List.orderedInsert (fun a b => statusLess p a b = true) s2 st)
        acc →
      s ∈ acc ∨ s ∈ xs := by
    intro xs
    induction xs with
    | nil => exact fun acc h2 => Or.inl h2
    | cons x t ih =>
      intro acc h2
      rw [List.foldl_cons] at h2
      rcases ih _ h2 with hacc | ht
      · rcases (List.mem_orderedInsert _).mp hacc with hx | hacc2
        · exact Or.inr (by simp [hx])
        · exact Or.inl hacc2
      · exact Or.inr (List.mem_cons_of_mem _ ht)
  unfold insertSegments at h
  rcases key _ _ h with hb | hiu
  · exact Or.inl hb
  · exact Or.inr (List.mem_append.mp hiu)

theorem mem_deleteSegments {status lower interior : List Segment} {s : Segment}
    (h : s ∈ deleteSegments status lower interior) : s ∈ status :=
  List.mem_of_mem_filter h

theorem mem_lowerAt {status : List Segment} {p : Point} {s : Segment}
    (h : s ∈ lowerAt status p) : s ∈ status :=
  List.mem_of_mem_filter (List.mem_of_mem_filter h)

theorem mem_interiorAt {status : List Segment} {p : Point} {s : Segment}
    (h : s ∈ interiorAt status p) : s ∈ status :=
  List.mem_of_mem_filter (List.mem_of_mem_filter h)

theorem handleTail_status (st : SweepState) (e : SweepEvent)
    (lower interior upper : List Segment) :
    (handleTail st e lower interior upper).status =
      insertSegments (deleteSegments st.status lower interior) interior upper
        e.point := by
  unfold handleTail
  repeat' first | rfl | (split <;> try rfl) | dsimp only | rw [findNewEvent_status]

theorem findNewEvent_queueUppers_sub {l r : Option Segment} {e : SweepEvent}
    {st : SweepState} : ∀ {s : Segment},
    s ∈ queueUppers (findNewEvent l r e st).queue → s ∈ queueUppers st.queue :=
  fun h => mem_queueUppers_findNewEvent h

set_option maxHeartbeats 2000000 in
theorem mem_queueUppers_handleTail {st : SweepState} {e : SweepEvent}
    {lower interior upper : List Segment} {s : Segment}
    (h : s ∈ queueUppers (handleTail st e lower interior upper).queue) :
    s ∈ queueUppers st.queue := by
  revert h
  unfold handleTail
  dsimp only
  generalize insertSegments (deleteSegments st.status lower interior) interior upper
    e.point = S
  split
  · split
    · intro h
      have h2 := mem_queueUppers_findNewEvent h
      exact h2
    · exact fun h => h
  · intro h
    have h2 := mem_queueUppers_findNewEvent h
    have h3 := mem_queueUppers_findNewEvent h2
    exact h3

theorem mem_SegsOf_handleTail {st : SweepState} {e : SweepEvent}
    {lower interior upper : List Segment} {s : Segment}
    (h : s ∈ SegsOf (handleTail st e lower interior upper)) :
    s ∈ SegsOf st ∨ s ∈ interior ∨ s ∈ upper := by
  unfold SegsOf at h ⊢
  rcases List.mem_append.mp h with hs | hq
  · rw [handleTail_status] at hs
    rcases mem_insertSegments hs with hb | hiu
    · exact Or.inl (List.mem_append.mpr (Or.inl (mem_deleteSegments hb)))
    · exact Or.inr hiu
  · exact Or.inl (List.mem_append.mpr (Or.inr (mem_queueUppers_handleTail hq)))

/-- The canonicalization pass establishes the orientation invariant for
every non-degenerate segment. -/
theorem orient_of_swap (f t : Point)
    (hc : f.y < t.y ∨ (f.y = t.y ∧ f.x > t.x)) :
    t.y > f.y ∨ (t.y = f.y ∧ t.x < f.x) := by
  rcases hc with hlt | ⟨heq, hgt⟩
  · exact Or.inl hlt
  · exact Or.inr ⟨heq.symm, hgt⟩

theorem orient_of_noswap (f t : Point)
    (hc : ¬(f.y < t.y ∨ (f.y = t.y ∧ f.x > t.x)))
    (hne : ¬(qsub f.y t.y = 0 ∧ qsub f.x t.x = 0)) :
    f.y > t.y ∨ (f.y = t.y ∧ f.x < t.x) := by
  rw [qsub_eq_sub, qsub_eq_sub, sub_eq_zero, sub_eq_zero] at hne
  push_neg at hc
  rcases lt_or_eq_of_le hc.1 with hlt | heq
  · exact Or.inl hlt
  · refine Or.inr ⟨heq.symm, ?_⟩
    have hx := hc.2 heq.symm
    rcases lt_or_eq_of_le hx with hxlt | hxeq
    · exact hxlt
    · exact absurd ⟨heq.symm, hxeq⟩ hne

/-- The canonicalization pass establishes the orientation invariant for
every non-degenerate segment. -/
theorem canonicalize_ok (raw : RawSegment)
    (h : ¬((canonicalize raw).dy = 0 ∧ (canonicalize raw).dx = 0)) :
    SegOK (canonicalize raw) := by
  unfold canonicalize at h ⊢
  unfold SegOK
  dsimp only at h ⊢
  split_ifs at h ⊢ with h1 h2 h3
  · exact ⟨orient_of_swap _ _ h2, qsub_eq_sub _ _, qsub_eq_sub _ _, rfl⟩
  · exact ⟨orient_of_noswap _ _ h2 h, qsub_eq_sub _ _, qsub_eq_sub _ _, rfl⟩
  · exact ⟨orient_of_swap _ _ h3, qsub_eq_sub _ _, qsub_eq_sub _ _, rfl⟩
  · exact ⟨orient_of_noswap _ _ h3 h, qsub_eq_sub _ _, qsub_eq_sub _ _, rfl⟩

/-- `handleEventPoint` only moves segments that the state (or the event's
upper list) already stores. -/
theorem mem_SegsOf_handleEventPoint {cfg : Config} {st : SweepState}
    {e : SweepEvent} {s : Segment}
    (h : s ∈ SegsOf (handleEventPoint cfg st e).1) :
    s ∈ SegsOf st ∨ s ∈ upperOf e := by
  have hrs : ∀ (p : Point) (xs : List RVal),
      SegsOf (reportIntersection cfg st p xs).1 = SegsOf st := by
    intro p xs
    unfold SegsOf
    rw [reportIntersection_status, reportIntersection_queue]
  unfold handleEventPoint at h
  dsimp only at h
  split_ifs at h with h1 h2
  · dsimp only at h
    rw [hrs] at h
    exact Or.inl h
  · rcases mem_SegsOf_handleTail h with hst | hiu
    · rw [hrs] at hst
      exact Or.inl hst
    · rcases hiu with hi | hu
      · refine Or.inl ?_
        unfold SegsOf
        exact List.mem_append.mpr (Or.inl (mem_interiorAt hi))
      · exact Or.inr hu
  · rcases mem_SegsOf_handleTail h with hst | hiu
    · exact Or.inl hst
    · rcases hiu with hi | hu
      · exact Or.inl (List.mem_append.mpr (Or.inl (mem_interiorAt hi)))
      · exact Or.inr hu

/-- `addSegment` stores no segment other than those already stored and the
canonicalized new segment (the latter only when it is not degenerate). -/
theorem mem_SegsOf_addSegment {cfg : Config} {st : SweepState} {raw : RawSegment}
    {s : Segment} (h : s ∈ SegsOf (addSegment cfg st raw)) :
    s ∈ SegsOf st ∨
      (s = canonicalize raw ∧
        ¬((canonicalize raw).dy = (canonicalize raw).dx ∧
          (canonicalize raw).dy = 0)) := by
  unfold addSegment at h
  dsimp only at h
  split at h
  · -- duplicate found: two reports, state storage unchanged
    unfold SegsOf at h ⊢
    rw [reportIntersection_status, reportIntersection_queue,
      reportIntersection_status, reportIntersection_queue] at h
    exact Or.inl h
  · split_ifs at h with hp
    · -- degenerate: lone endpoint event with no upper list
      unfold SegsOf at h ⊢
      rcases List.mem_append.mp h with hs | hq
      · exact Or.inl (List.mem_append.mpr (Or.inl hs))
      · rcases mem_queueUppers_queueInsert hq with h2 | h2
        · exact Or.inl (List.mem_append.mpr (Or.inr h2))
        · simp at h2
    · -- regular segment: scheduled at both endpoints
      unfold SegsOf at h ⊢
      rcases List.mem_append.mp h with hs | hq
      · exact Or.inl (List.mem_append.mpr (Or.inl hs))
      · rcases mem_queueUppers_queueInsert hq with h2 | h2
        · split at h2
          · rcases mem_queueUppers_queueAddUpper h2 with h3 | h3
            · exact Or.inl (List.mem_append.mpr (Or.inr h3))
            · exact Or.inr ⟨h3, hp⟩
          · rcases mem_queueUppers_queueInsert h2 with h3 | h3
            · exact Or.inl (List.mem_append.mpr (Or.inr h3))
            · rw [Option.getD_some, List.mem_singleton] at h3
              exact Or.inr ⟨h3, hp⟩
        · simp at h2

/-- C6: canonicalization establishes the orientation invariant (`from.y >
to.y`, or equal `y` and `from.x < to.x`, with `dy`/`dx`/`angle` as
computed) for every non-degenerate segment, and neither event processing
nor further ingestion ever stores a segment violating it. -/
theorem claim_C6_canonical_orientation :
    (∀ raw : RawSegment,
        ¬((canonicalize raw).dy = 0 ∧ (canonicalize raw).dx = 0) →
        SegOK (canonicalize raw))
    ∧ (∀ (cfg : Config) (st : SweepState) (e : SweepEvent),
        AllSegsOK st →
        (∀ s ∈ upperOf e, (s.dy = 0 ∧ s.dx = 0) ∨ SegOK s) →
        AllSegsOK (handleEventPoint cfg st e).1)
    ∧ ∀ (cfg : Config) (st : SweepState) (raw : RawSegment),
        AllSegsOK st → AllSegsOK (addSegment cfg st raw) := by
  refine ⟨canonicalize_ok, ?_, ?_⟩
  · intro cfg st e hst hup s hs
    rcases mem_SegsOf_handleEventPoint hs with h1 | h2
    · exact hst s h1
    · exact hup s h2
  · intro cfg st raw hst s hs
    rcases mem_SegsOf_addSegment hs with h1 | ⟨hEq, hnp⟩
    · exact hst s h1
    · subst hEq
      refine Or.inr (canonicalize_ok raw ?_)
      intro hc
      exact hnp ⟨by rw [hc.1, hc.2], hc.1⟩

/-- Witness for C6: the canonicalized `demoA` and a one-segment state. -/
theorem claim_C6_canonical_orientation_witness :
    ¬((canonicalize demoA).dy = 0 ∧ (canonicalize demoA).dx = 0) ∧
    SegOK (canonicalize demoA) ∧
    AllSegsOK (addSegment cfgDefault initialState demoA) :=
  ⟨by decide,
   claim_C6_canonical_orientation.1 demoA (by decide),
   claim_C6_canonical_orientation.2.2 cfgDefault initialState demoA
     (by intro s hs; simp [SegsOf, initialState, queueUppers] at hs)⟩

/-- Witness for C10 at concrete numbers. -/
theorem claim_C10_greaterThan_compares_lhs_with_itself_witness :
    ¬(numOps.comparableFlag 1 = true ∧ numOps.comparableFlag 2 = true) ∧
    greaterThan numOps 1 2 = numOps.jsGt 1 1 ∧
    greaterThan numOps 3 4 = false :=
  ⟨by simp [numOps],
   claim_C10_greaterThan_compares_lhs_with_itself.1 ℚ numOps 1 2 (by simp [numOps]),
   claim_C10_greaterThan_compares_lhs_with_itself.2 3 4⟩

end Nova
